import Mathlib

/-!
Verification development for the data-augmentation / batching helper of a
behavioral-cloning training pipeline (`helper.py`).

Shallow embedding conventions:
* A raster image (numpy `ndarray` of shape rows x cols x channels) is a
  `List (List (List Rat))`; pixel arithmetic that the Python code performs in
  floating point is modelled over exact rationals.
* Steering angles, which the code combines with `np.pi`-based calibration
  constants, are modelled over the reals, with `np.pi` modelled as `Real.pi`.
* Every random draw taken from the global random source
  (`random.random`, `random.randint`, `np.random.*`) is passed to the embedded
  function as an explicit argument; side conditions that the drawing primitive
  guarantees (e.g. `np.random.randint(0, 3) < 3`) appear as hypotheses.
* numpy/OpenCV calls are external-library collaborators; they are modelled at
  the granularity the program relies on: exact element-wise semantics for
  `fliplr`, slicing, `addWeighted`, `fillPoly` region filling, and
  dimension-faithful nearest-neighbour sampling for `resize`/`warpAffine`.
* In-place argument mutation (an operation called with an explicit `dst`
  buffer) is modelled by returning, alongside the function result, the contents
  of the caller's argument buffer after the call.
* Fallible steps (row access, column access, image loading, free-variable
  lookup) return `Except PipeError`.
-/

set_option maxRecDepth 8000

namespace BCHelper

/-- One pixel: the list of channel values of a raster image cell. -/
abbrev Pixel := List ℚ

/-- A raster image: rows of pixels (numpy shape rows x cols x channels). -/
abbrev Image := List (List Pixel)

/-- Number of rows (`shape[0]`). -/
def height (img : Image) : ℕ := img.length

/-- Number of columns (`shape[1]`): length of the first row. -/
def width (img : Image) : ℕ := (img.headD []).length

/-- Number of channels (`shape[2]`): length of the first pixel. -/
def channels (img : Image) : ℕ := ((img.headD []).headD []).length

/-- Shape triple (rows, cols, channels) of an image. -/
def dims (img : Image) : ℕ × ℕ × ℕ := (height img, width img, channels img)

/-- Rectangularity invariant every numpy `ndarray` satisfies: all rows have the
same length and all pixels the same channel count. -/
def ImageWF (img : Image) : Prop :=
  ∀ row ∈ img, row.length = width img ∧ ∀ p ∈ row, p.length = channels img

/-- Decidability of the rectangularity invariant, so witnesses can check it on
concrete images. -/
instance (img : Image) : Decidable (ImageWF img) :=
  decidable_of_iff
    (∀ row ∈ img, row.length = width img ∧ ∀ p ∈ row, p.length = channels img)
    Iff.rfl

/-- Pixel at (row i, column j), defaulting to the empty pixel out of range. -/
def getPixel (img : Image) (i j : ℕ) : Pixel := (img.getD i []).getD j []

/-- Clamp an integer coordinate into [0, n-1] (OpenCV BORDER_REPLICATE). -/
def clampIdx (n : ℕ) (i : ℤ) : ℕ := (max (min i ((n : ℤ) - 1)) 0).toNat

/-- Sample a pixel at possibly out-of-range integer coordinates, replicating
the border (`borderMode=1` i.e. BORDER_REPLICATE in the source). -/
def samplePixel (img : Image) (i j : ℤ) : Pixel :=
  getPixel img (clampIdx (height img) i) (clampIdx (width img) j)

/-- Build an h x w image from a pixel-valued function of (row, column). -/
def mkImage (h w : ℕ) (f : ℕ → ℕ → Pixel) : Image :=
  (List.range h).map (fun i => (List.range w).map (f i))

/-- Model of `np.fliplr`: reverse the column order of every row. -/
def fliplr (img : Image) : Image := img.map List.reverse

/-- Model of the OpenCV scalar colour `-1` broadcast over a pixel: drawing
functions expand a scalar `v` to the colour (v, 0, 0, ...), so channel 0
receives `-1` and the remaining channels `0`. -/
def fillColor (p : Pixel) : Pixel :=
  p.enum.map (fun c => if c.1 = 0 then (-1 : ℚ) else 0)

/-- Whether a horizontal ray from (x, y) crosses the edge from a to b:
the edge straddles the ray vertically and the crossing point lies strictly
right of x (the division-free form of
`x < a.1 + (y - a.2) * (b.1 - a.1) / (b.2 - a.2)`). -/
def edgeCrosses (a b : ℤ × ℤ) (x y : ℤ) : Bool :=
  (decide (y < a.2) != decide (y < b.2)) &&
  (if 0 < b.2 - a.2 then
    decide ((x - a.1) * (b.2 - a.2) < (y - a.2) * (b.1 - a.1))
  else
    decide ((y - a.2) * (b.1 - a.1) < (x - a.1) * (b.2 - a.2)))

/-- Even-odd (crossing-number) test deciding whether the point (x, y) lies
inside the polygon, used to model which pixels `cv2.fillPoly` paints.
Polygon vertices are OpenCV points, i.e. (column, row) pairs. -/
def pointInPoly (poly : List (ℤ × ℤ)) (x y : ℤ) : Bool :=
  let edges := poly.zip (poly.rotate 1)
  (edges.filter (fun e => edgeCrosses e.1 e.2 x y)).length % 2 = 1

/-- Structural index-passing map (kernel-reduction-friendly replacement for
`List.mapIdx`). -/
def mapIdxFrom {α β : Type} (f : ℕ → α → β) : ℕ → List α → List β
  | _, [] => []
  | k, a :: l => f k a :: mapIdxFrom f (k + 1) l

/-- Model of `cv2.fillPoly img [poly] (-1)`: repaint every pixel whose
(column, row) point lies inside the polygon with the broadcast colour. -/
def fillPoly (img : Image) (poly : List (ℤ × ℤ)) : Image :=
  mapIdxFrom (fun i row => mapIdxFrom (fun j p =>
    if pointInPoly poly (j : ℤ) (i : ℤ) then fillColor p else p) 0 row) 0 img

/-- Model of `cv2.addWeighted src1 alpha src2 beta gamma`: the element-wise
blend `alpha*src1 + beta*src2 + gamma`. -/
def addWeighted (src1 : Image) (alpha : ℚ) (src2 : Image) (beta : ℚ)
    (gamma : ℚ) : Image :=
  List.zipWith (fun r1 r2 => List.zipWith (fun p1 p2 =>
    List.zipWith (fun a b => alpha * a + beta * b + gamma) p1 p2) r1 r2)
    src1 src2

/-- 3x3 determinant, used to solve the three-point affine system. -/
def det3 (a b c d e f g h i : ℚ) : ℚ :=
  a * (e * i - f * h) - b * (d * i - f * g) + c * (d * h - e * g)

/-- Model of `cv2.getAffineTransform`: the 2x3 matrix ((a,b,c),(d,e,f)) with
`a*x + b*y + c = u` and `d*x + e*y + f = v` on the three point pairs
(solved by Cramer's rule; degenerate source triangles give the zero-divided
matrix, a configuration the program never produces). -/
def getAffineTransform (s1 s2 s3 t1 t2 t3 : ℚ × ℚ) :
    (ℚ × ℚ × ℚ) × (ℚ × ℚ × ℚ) :=
  let dd := det3 s1.1 s1.2 1 s2.1 s2.2 1 s3.1 s3.2 1
  let a := det3 t1.1 s1.2 1 t2.1 s2.2 1 t3.1 s3.2 1 / dd
  let b := det3 s1.1 t1.1 1 s2.1 t2.1 1 s3.1 t3.1 1 / dd
  let c := det3 s1.1 s1.2 t1.1 s2.1 s2.2 t2.1 s3.1 s3.2 t3.1 / dd
  let d := det3 t1.2 s1.2 1 t2.2 s2.2 1 t3.2 s3.2 1 / dd
  let e := det3 s1.1 t1.2 1 s2.1 t2.2 1 s3.1 t3.2 1 / dd
  let f := det3 s1.1 s1.2 t1.2 s2.1 s2.2 t2.2 s3.1 s3.2 t3.2 / dd
  ((a, b, c), (d, e, f))

/-- Model of `cv2.warpAffine img M (dw, dh)` with `borderMode=1`
(BORDER_REPLICATE): a dh x dw image in which the pixel at destination point
(x, y) is sampled from the source at the inverse affine image of (x, y)
(nearest-neighbour, border-replicated).  A singular matrix, which OpenCV
leaves unspecified, samples the origin. -/
def warpAffine (img : Image) (M : (ℚ × ℚ × ℚ) × (ℚ × ℚ × ℚ))
    (dw dh : ℕ) : Image :=
  let a := M.1.1
  let b := M.1.2.1
  let c := M.1.2.2
  let d := M.2.1
  let e := M.2.2.1
  let f := M.2.2.2
  let det := a * e - b * d
  mkImage dh dw (fun i j =>
    if det = 0 then samplePixel img 0 0
    else
      let sx := (e * ((j : ℚ) - c) - b * ((i : ℚ) - f)) / det
      let sy := (a * ((i : ℚ) - f) - d * ((j : ℚ) - c)) / det
      samplePixel img (Rat.floor (sy + 1/2)) (Rat.floor (sx + 1/2)))

/-- Model of one pixel of `cv2.cvtColor(..., COLOR_RGB2HSV)` (floating-point
convention: V = max, S = (V-min)/V, H in degrees).  Pixels that are not
3-channel, which OpenCV rejects, are passed through. -/
def rgb2hsvPixel (p : Pixel) : Pixel :=
  match p with
  | [r, g, b] =>
    let v := max r (max g b)
    let mn := min r (min g b)
    let s := if v = 0 then 0 else (v - mn) / v
    let h0 :=
      if v = mn then 0
      else if v = r then 60 * (g - b) / (v - mn)
      else if v = g then 120 + 60 * (b - r) / (v - mn)
      else 240 + 60 * (r - g) / (v - mn)
    let h := if h0 < 0 then h0 + 360 else h0
    [h, s, v]
  | q => q

/-- Model of one pixel of `cv2.cvtColor(..., COLOR_HSV2RGB)` (standard
sector-wise inverse conversion).  Non-3-channel pixels pass through. -/
def hsv2rgbPixel (p : Pixel) : Pixel :=
  match p with
  | [h, s, v] =>
    let hi := (Rat.floor (h / 60)) % 6
    let fr := h / 60 - (Rat.floor (h / 60) : ℚ)
    let pp := v * (1 - s)
    let qq := v * (1 - fr * s)
    let tt := v * (1 - (1 - fr) * s)
    if hi = 0 then [v, tt, pp]
    else if hi = 1 then [qq, v, pp]
    else if hi = 2 then [pp, v, tt]
    else if hi = 3 then [pp, qq, v]
    else if hi = 4 then [tt, pp, v]
    else [v, pp, qq]
  | q => q

/-- Model of `cv2.cvtColor(image, cv2.COLOR_RGB2HSV)`: per-pixel conversion. -/
def cvtColorRGB2HSV (img : Image) : Image := img.map (List.map rgb2hsvPixel)

/-- Model of `cv2.cvtColor(image, cv2.COLOR_HSV2RGB)`: per-pixel conversion. -/
def cvtColorHSV2RGB (img : Image) : Image := img.map (List.map hsv2rgbPixel)

/-! ### Constants of `helper.py` -/

/-- CSV column names (`COLUMNS` in the source). -/
def COLUMNS : List String :=
  ["center", "left", "right", "steering", "throttle", "brake", "speed"]

/-- Upper crop row (`HORIZON = 60`). -/
def HORIZON : ℕ := 60

/-- Lower crop row (`BONNET = 136`). -/
def BONNET : ℕ := 136

/-- Camera offset parameter (`offset = 1.0`). -/
noncomputable def offset : ℝ := 1.0

/-- Camera distance parameter (`dist = 15.0`). -/
noncomputable def dist : ℝ := 15.0

/-- `STEERING_COEFFICIENT = offset/dist * 360/(2*np.pi) / 25.0`. -/
noncomputable def STEERING_COEFFICIENT : ℝ :=
  offset / dist * 360 / (2 * Real.pi) / 25.0

/-! ### The transforms of `helper.py` -/

/-- Model of `random_flip(image, steering_angle, flipping_prob=0.5)`.
`r` is the `random.random()` draw (a float in [0, 1)). -/
def random_flip (r : ℚ) (image : Image) (steering_angle : ℝ)
    (flipping_prob : ℚ) : Image × ℝ :=
  if r < flipping_prob then (fliplr image, -1 * steering_angle)
  else (image, steering_angle)

/-- Model of `get_shadow_poly(max_x, max_y)`.  `hdraw` is the
`np.random.uniform()` draw choosing the branch; `d1 d2 d3 d4` are the four
successive `random.randint` draws of the taken branch.  Note the caller
(`random_shadows`) passes (max_x, max_y) = (shape[0], shape[1]) =
(height, width), yet `cv2.fillPoly` reads each vertex as (column, row): the
axes are swapped relative to the image. -/
def get_shadow_poly (hdraw : ℚ) (d1 d2 d3 d4 : ℤ) (max_x max_y : ℕ) :
    List (ℤ × ℤ) :=
  if hdraw < 1/2 then
    [(d1, 0), (d2, 0), (d3, (max_y : ℤ)), (d4, (max_y : ℤ))]
  else
    [(0, d1), (0, d2), ((max_x : ℤ), d3), ((max_x : ℤ), d4)]

/-- The ranges `random.randint` guarantees for the four draws of
`get_shadow_poly` (`randint(0, m/2)` yields an integer in [0, m/2] and
`randint(m/2, m)` one in [m/2, m]; bounds stated integrally as 2*d vs m). -/
def shadowDrawsValid (hdraw : ℚ) (d1 d2 d3 d4 : ℤ) (max_x max_y : ℕ) : Prop :=
  if hdraw < 1/2 then
    (0 ≤ d1 ∧ 2 * d1 ≤ (max_x : ℤ)) ∧
    ((max_x : ℤ) ≤ 2 * d2 ∧ d2 ≤ (max_x : ℤ)) ∧
    ((max_x : ℤ) ≤ 2 * d3 ∧ d3 ≤ (max_x : ℤ)) ∧
    (0 ≤ d4 ∧ 2 * d4 ≤ (max_x : ℤ))
  else
    (0 ≤ d1 ∧ 2 * d1 ≤ (max_y : ℤ)) ∧
    ((max_y : ℤ) ≤ 2 * d2 ∧ d2 ≤ (max_y : ℤ)) ∧
    ((max_y : ℤ) ≤ 2 * d3 ∧ d3 ≤ (max_y : ℤ)) ∧
    (0 ≤ d4 ∧ 2 * d4 ≤ (max_y : ℤ))

/-- Decidability of the draw-range predicate, for witnesses. -/
instance (hdraw : ℚ) (d1 d2 d3 d4 : ℤ) (max_x max_y : ℕ) :
    Decidable (shadowDrawsValid hdraw d1 d2 d3 d4 max_x max_y) := by
  unfold shadowDrawsValid
  infer_instance

/-- Model of `random_shadows(image)`.  `hdraw d1 d2 d3 d4` feed
`get_shadow_poly`, `alpha` is the `np.random.uniform(0.6, 0.9)` draw.
First component: the returned image.  Second component: the contents of the
caller's `image` buffer after the call — the source invokes
`cv2.addWeighted(shadows, alpha, image, 1-alpha, 0, image)` with the input
array as the `dst` argument, so the blend is also written in place. -/
def random_shadows (hdraw : ℚ) (d1 d2 d3 d4 : ℤ) (alpha : ℚ)
    (image : Image) : Image × Image :=
  let shadows := image
  let poly := get_shadow_poly hdraw d1 d2 d3 d4 (height shadows) (width shadows)
  let shadows2 := fillPoly shadows poly
  let out := addWeighted shadows2 alpha image (1 - alpha) 0
  (out, out)

/-- Model of `random_shear(image, steering_angle, shear_range=200)`.
`dx` is the `np.random.randint(-shear_range, shear_range + 1)` draw. -/
noncomputable def random_shear (dx : ℤ) (image : Image) (steering_angle : ℝ)
    (shear_range : ℤ) : Image × ℝ :=
  let rows := height image
  let cols := width image
  let random_point : ℚ × ℚ := ((cols : ℚ) / 2 + (dx : ℚ), (rows : ℚ) / 2)
  let p1 : ℚ × ℚ := (0, (rows : ℚ))
  let p2 : ℚ × ℚ := ((cols : ℚ), (rows : ℚ))
  let p3 : ℚ × ℚ := ((cols : ℚ) / 2, (rows : ℚ) / 2)
  let dsteering : ℝ :=
    (dx : ℝ) / ((rows : ℝ) / 2) * 360 / (2 * Real.pi * 25.0) / 6.0
  let M := getAffineTransform p1 p2 p3 p1 p2 random_point
  let image2 := warpAffine image M cols rows
  (image2, steering_angle + dsteering)

/-- Model of `crop(image)`: the slice `image[HORIZON:BONNET, 0:shape[1], :]`
(no random input). -/
def crop (image : Image) : Image :=
  let shape1 := width image
  ((image.drop HORIZON).take (BONNET - HORIZON)).map
    (fun row => (row.drop 0).take shape1)

/-- Model of `resize(image, resize_dim)` (`cv2.resize`; `resize_dim` is an
OpenCV (width, height) size): dimension-faithful nearest-neighbour resample. -/
def resize (image : Image) (resize_dim : ℕ × ℕ) : Image :=
  let w := resize_dim.1
  let h := resize_dim.2
  mkImage h w (fun i j =>
    samplePixel image (Rat.floor ((i : ℚ) * (height image : ℚ) / (h : ℚ)))
      (Rat.floor ((j : ℚ) * (width image : ℚ) / (w : ℚ))))

/-- Model of `random_brightness(image, median=0.8, dev=0.4)`.
`u` is the `np.random.uniform(-1.0, 1.0)` draw; the value channel (index 2)
of the HSV representation is scaled by `median + dev * u`. -/
def random_brightness (u : ℚ) (image : Image) (median dev : ℚ) : Image :=
  let hsv := cvtColorRGB2HSV image
  let random_bright := median + dev * u
  let hsv2 := hsv.map (List.map (fun p => p.set 2 (p.getD 2 0 * random_bright)))
  cvtColorHSV2RGB hsv2

/-- Model of `generate_new_image(image, steering_angle, do_shear_prob=0.5)`.
`sdraw` is the `random.random()` draw, `dx` the shear draw used if shearing
fires (the source calls `random_shear` with its default `shear_range=200`). -/
noncomputable def generate_new_image (sdraw : ℚ) (dx : ℤ) (image : Image)
    (steering_angle : ℝ) (do_shear_prob : ℚ) : Image × ℝ :=
  if sdraw < do_shear_prob then random_shear dx image steering_angle 200
  else (image, steering_angle)

/-! ### Buffer (argument-mutation) semantics of the transforms

Each `...Run` form pairs a transform's result with the contents of the
caller's image argument after the call.  Only `random_shadows` passes the
argument as an OpenCV `dst` buffer (see `random_shadows`); the remaining
transforms apply only value-returning operations to it. -/

/-- `random_flip` and the caller's buffer after the call (`np.fliplr` returns
a fresh view; nothing writes into the argument). -/
def random_flipRun (r : ℚ) (image : Image) (steering_angle : ℝ)
    (flipping_prob : ℚ) : (Image × ℝ) × Image :=
  (random_flip r image steering_angle flipping_prob, image)

/-- `random_shear` and the caller's buffer after the call (`cv2.warpAffine`
without a `dst` argument allocates its output). -/
noncomputable def random_shearRun (dx : ℤ) (image : Image)
    (steering_angle : ℝ) (shear_range : ℤ) : (Image × ℝ) × Image :=
  (random_shear dx image steering_angle shear_range, image)

/-- `crop` and the caller's buffer after the call (slicing never writes). -/
def cropRun (image : Image) : Image × Image := (crop image, image)

/-- `resize` and the caller's buffer after the call (`cv2.resize` without a
usable `dst` allocates its output). -/
def resizeRun (image : Image) (resize_dim : ℕ × ℕ) : Image × Image :=
  (resize image resize_dim, image)

/-- `random_brightness` and the caller's buffer after the call (the in-place
channel update hits the freshly allocated `hsv` array, not the argument). -/
def random_brightnessRun (u : ℚ) (image : Image) (median dev : ℚ) :
    Image × Image :=
  (random_brightness u image median dev, image)

/-! ### Driving-log rows and the batch pipeline -/

/-- One row of the driving log, as loaded by the external CSV collaborator
(columns `center, left, right, steering, throttle, brake, speed`). -/
structure LogRow where
  center : String
  left : String
  right : String
  steering : ℝ
  throttle : ℝ
  brake : ℝ
  speed : ℝ

/-- A cell of a log row: path columns hold strings, the rest numbers. -/
inductive Cell where
  | str (s : String)
  | num (x : ℝ)

/-- The seven cells of a row in `COLUMNS` order, for positional access
(`csv.iloc[index][k]`). -/
def LogRow.cells (row : LogRow) : List Cell :=
  [.str row.center, .str row.left, .str row.right, .num row.steering,
   .num row.throttle, .num row.brake, .num row.speed]

/-- Runtime failures the pipeline can propagate (section 7 of the spec:
row access, cell access, attribute/type misuse on a cell, the free-variable
lookup of `resize_dim`, and image loading). -/
inductive PipeError where
  | rowIndexOutOfRange
  | cellIndexOutOfRange
  | malformedRow
  | nameErrorResizeDim
  | imageLoadError (path : String)
  deriving DecidableEq

/-- Model of Python `str.strip()`: drop whitespace from both ends (structural
recursion over the character data, so the kernel can evaluate it). -/
def pyStrip (s : String) : String :=
  ⟨((s.data.dropWhile Char.isWhitespace).reverse.dropWhile
      Char.isWhitespace).reverse⟩

/-- Python `cell.strip()`: succeeds on a string cell, raises on a number. -/
def cellStrip : Cell → Except PipeError String
  | .str s => .ok (pyStrip s)
  | .num _ => .error .malformedRow

/-- Use of a cell as a number (the steering column); raises on a string. -/
def cellNum : Cell → Except PipeError ℝ
  | .str _ => .error .malformedRow
  | .num x => .ok x

/-- Model of `get_random_camera_data(csv, index)`.  `rnd` is the
`np.random.randint(0, 3)` draw choosing the camera. -/
noncomputable def get_random_camera_data (csv : List LogRow) (index : ℕ)
    (rnd : ℕ) : Except PipeError (String × ℝ) :=
  match csv.get? index with
  | none => .error .rowIndexOutOfRange
  | some row =>
    match row.cells.get? (COLUMNS.indexOf "center" + rnd) with
    | none => .error .cellIndexOutOfRange
    | some cell =>
      match cellStrip cell with
      | .error e => .error e
      | .ok img =>
        match row.cells.get? (COLUMNS.indexOf "steering") with
        | none => .error .cellIndexOutOfRange
        | some acell =>
          match cellNum acell with
          | .error e => .error e
          | .ok angle0 =>
            let angle :=
              if rnd = COLUMNS.indexOf "left" then
                angle0 + STEERING_COEFFICIENT
              else if rnd = COLUMNS.indexOf "right" then
                angle0 - STEERING_COEFFICIENT
              else angle0
            .ok (img, angle)

/-- Model of `next_batch(samples, batch_size)`.  `draws` carries, per batch
entry, the row-index draw `np.random.randint(0, len(samples))` and the camera
draw consumed inside `get_random_camera_data`; a raised exception aborts the
loop exactly as `mapM` aborts. -/
noncomputable def next_batch (samples : List LogRow) (draws : List (ℕ × ℕ)) :
    Except PipeError (List (String × ℝ)) :=
  draws.mapM (fun d => get_random_camera_data samples d.1 d.2)

/-- One loop-body step of `generate_next_batch`: load the image file, then
either augment (`generate_new_image`) or run the crop+resize branch.  The
source's non-augmented branch evaluates the free name `resize_dim`, which
`helper.py` never defines, so that branch raises `NameError` before `resize`
can run.  `aug` carries the two random draws `generate_new_image` consumes. -/
noncomputable def processEntry (load : String → Except PipeError Image)
    (augment : Bool) (aug : ℚ × ℤ) (entry : String × ℝ) :
    Except PipeError (Image × ℝ) :=
  match load entry.1 with
  | .error e => .error e
  | .ok image =>
    if augment then .ok (generate_new_image aug.1 aug.2 image entry.2 (1/2))
    else .error .nameErrorResizeDim

/-- The batch-assembly loop of `generate_next_batch`: process the sampled
entries in order, numbering them so each consumes its own random draws
(`augDraw k`); the first raised exception aborts the loop. -/
noncomputable def processEntries (load : String → Except PipeError Image)
    (augment : Bool) (augDraw : ℕ → ℚ × ℤ) :
    ℕ → List (String × ℝ) → Except PipeError (List (Image × ℝ))
  | _, [] => .ok []
  | k, e :: rest =>
    match processEntry load augment (augDraw k) e with
    | .error err => .error err
    | .ok pair =>
      match processEntries load augment augDraw (k + 1) rest with
      | .error err => .error err
      | .ok tail => .ok (pair :: tail)

/-- Model of one iteration (one `yield`) of the infinite generator
`generate_next_batch(samples, batch_size, augment)`: sample a batch of
(path, angle) pairs, load and transform each image, and emit the parallel
image/label lists.  `load` is the `plt.imread` collaborator. -/
noncomputable def generate_next_batch_once
    (load : String → Except PipeError Image) (samples : List LogRow)
    (draws : List (ℕ × ℕ)) (augDraw : ℕ → ℚ × ℤ) (augment : Bool) :
    Except PipeError (List Image × List ℝ) :=
  match next_batch samples draws with
  | .error e => .error e
  | .ok entries =>
    match processEntries load augment augDraw 0 entries with
    | .error e => .error e
    | .ok pairs => .ok (pairs.map Prod.fst, pairs.map Prod.snd)

/-! ### Concrete fixtures used by witnesses and counterexamples -/

/-- A 2 x 2 single-channel image, all values 1. -/
def img2 : Image := [[[1], [1]], [[1], [1]]]

/-- A 1 x 1 three-channel image. -/
def img3 : Image := [[[0, 0, 0]]]

/-- A 136 x 1 single-channel image (just tall enough to crop). -/
def img136 : Image := List.replicate 136 [[0]]

/-- A 2 x 4 single-channel all-ones image (non-square, like the simulator's
camera frames). -/
def img24 : Image := [[[1], [1], [1], [1]], [[1], [1], [1], [1]]]

/-- A log row with untrimmed camera paths. -/
noncomputable def rowA : LogRow :=
  { center := "a", left := " al ", right := "ar", steering := 1,
    throttle := 0, brake := 0, speed := 0 }

/-- A second log row. -/
noncomputable def rowB : LogRow :=
  { center := "b", left := "bl", right := "br", steering := 2,
    throttle := 0, brake := 0, speed := 0 }

/-- An image loader that fails on path "b" and yields `img3` otherwise. -/
noncomputable def loadW : String → Except PipeError Image := fun s =>
  if s = "b" then .error (.imageLoadError "b") else .ok img3

/-! ### Helper lemmas -/

theorem clampIdx_lt (n : ℕ) (i : ℤ) (hn : 1 ≤ n) : clampIdx n i < n := by
  unfold clampIdx
  omega

theorem samplePixel_length (img : Image) (hwf : ImageWF img)
    (hH : 1 ≤ height img) (hW : 1 ≤ width img) (i j : ℤ) :
    (samplePixel img i j).length = channels img := by
  unfold samplePixel getPixel
  have hi : clampIdx (height img) i < img.length := clampIdx_lt _ _ hH
  have hrow : img.getD (clampIdx (height img) i) [] =
      img[clampIdx (height img) i] := List.getD_eq_getElem img [] hi
  rw [hrow]
  have hmem : img[clampIdx (height img) i] ∈ img := List.getElem_mem hi
  obtain ⟨hlen, hch⟩ := hwf _ hmem
  have hj : clampIdx (width img) j < (img[clampIdx (height img) i]).length := by
    rw [hlen]
    exact clampIdx_lt _ _ hW
  rw [List.getD_eq_getElem _ [] hj]
  exact hch _ (List.getElem_mem hj)

theorem height_mkImage (h w : ℕ) (f : ℕ → ℕ → Pixel) :
    height (mkImage h w f) = h := by
  simp [mkImage, height]

theorem width_mkImage (h w : ℕ) (f : ℕ → ℕ → Pixel) (hh : 1 ≤ h) :
    width (mkImage h w f) = w := by
  obtain ⟨k, rfl⟩ : ∃ k, h = k + 1 := ⟨h - 1, by omega⟩
  simp [mkImage, width, List.range_succ_eq_map]

theorem channels_mkImage (h w : ℕ) (f : ℕ → ℕ → Pixel) (hh : 1 ≤ h)
    (hw : 1 ≤ w) : channels (mkImage h w f) = (f 0 0).length := by
  obtain ⟨k, rfl⟩ : ∃ k, h = k + 1 := ⟨h - 1, by omega⟩
  obtain ⟨m, rfl⟩ : ∃ m, w = m + 1 := ⟨w - 1, by omega⟩
  simp [mkImage, channels, List.range_succ_eq_map]

theorem dims_warpAffine (img : Image) (M : (ℚ × ℚ × ℚ) × (ℚ × ℚ × ℚ))
    (dw dh : ℕ) (hh : 1 ≤ dh) (hw : 1 ≤ dw) (hwf : ImageWF img)
    (hH : 1 ≤ height img) (hW : 1 ≤ width img) :
    dims (warpAffine img M dw dh) = (dh, dw, channels img) := by
  unfold warpAffine dims
  refine Prod.ext ?_ (Prod.ext ?_ ?_)
  · exact height_mkImage _ _ _
  · exact width_mkImage _ _ _ hh
  · rw [channels_mkImage _ _ _ hh hw]
    dsimp only
    split
    · exact samplePixel_length img hwf hH hW 0 0
    · exact samplePixel_length img hwf hH hW _ _

theorem mapIdxFrom_length {α β : Type} (f : ℕ → α → β) (k : ℕ) (l : List α) :
    (mapIdxFrom f k l).length = l.length := by
  induction l generalizing k with
  | nil => rfl
  | cons a l ih => simp [mapIdxFrom, ih]

theorem fillColor_length (p : Pixel) : (fillColor p).length = p.length := by
  simp [fillColor]

theorem STEERING_COEFFICIENT_eq_div_pi :
    STEERING_COEFFICIENT = 0.48 / Real.pi := by
  have hpi : Real.pi ≠ 0 := Real.pi_ne_zero
  rw [STEERING_COEFFICIENT, offset, dist]
  field_simp
  ring

/-! ### Claim theorems -/

/-- Claim C1: for every log row with steering angle θ, `get_random_camera_data`
returns the chosen camera's (stripped) file path together with θ when the
center camera is drawn (rnd = 0), θ + STEERING_COEFFICIENT when the left
camera is drawn (rnd = 1), and θ - STEERING_COEFFICIENT when the right camera
is drawn (rnd = 2), where `STEERING_COEFFICIENT` is exactly
(1.0/15.0)·(360/(2π))/25.0 ≈ 0.1528. -/
theorem get_random_camera_data_spec (csv : List LogRow) (index : ℕ)
    (row : LogRow) (h : csv.get? index = some row) :
    get_random_camera_data csv index 0 =
      .ok (pyStrip row.center, row.steering) ∧
    get_random_camera_data csv index 1 =
      .ok (pyStrip row.left, row.steering + STEERING_COEFFICIENT) ∧
    get_random_camera_data csv index 2 =
      .ok (pyStrip row.right, row.steering - STEERING_COEFFICIENT) ∧
    STEERING_COEFFICIENT = 1.0 / 15.0 * (360 / (2 * Real.pi)) / 25.0 ∧
    0.15278 < STEERING_COEFFICIENT ∧ STEERING_COEFFICIENT < 0.15279 := by
  have hpi0 : (0 : ℝ) < Real.pi := Real.pi_pos
  refine ⟨?_, ?_, ?_, ?_, ?_, ?_⟩
  · simp only [get_random_camera_data, h]
    rfl
  · simp only [get_random_camera_data, h]
    rfl
  · simp only [get_random_camera_data, h]
    rfl
  · rw [STEERING_COEFFICIENT, offset, dist]
    norm_num
    ring
  · rw [STEERING_COEFFICIENT_eq_div_pi, lt_div_iff₀ hpi0]
    nlinarith [Real.pi_lt_d6]
  · rw [STEERING_COEFFICIENT_eq_div_pi, div_lt_iff₀ hpi0]
    nlinarith [Real.pi_gt_d6]

/-- Witness for C1 on a concrete one-row log. -/
theorem get_random_camera_data_spec_witness :
    get_random_camera_data [rowA] 0 0 =
      .ok (pyStrip rowA.center, rowA.steering) ∧
    get_random_camera_data [rowA] 0 1 =
      .ok (pyStrip rowA.left, rowA.steering + STEERING_COEFFICIENT) ∧
    get_random_camera_data [rowA] 0 2 =
      .ok (pyStrip rowA.right, rowA.steering - STEERING_COEFFICIENT) :=
  ⟨(get_random_camera_data_spec [rowA] 0 rowA rfl).1,
   (get_random_camera_data_spec [rowA] 0 rowA rfl).2.1,
   (get_random_camera_data_spec [rowA] 0 rowA rfl).2.2.1⟩

/-- Claim C3: for an image of height H ≥ 1 and a drawn offset dx in
[-shear_range, shear_range], `random_shear` returns the input angle plus
exactly dx / (H/2) · 360 / (2π·25.0) / 6.0, and dx = 0 leaves the angle
unchanged. -/
theorem random_shear_steering_delta (image : Image) (θ : ℝ) (dx sr : ℤ)
    (hH : 1 ≤ height image) (hlo : -sr ≤ dx) (hhi : dx ≤ sr) :
    (random_shear dx image θ sr).2 =
      θ + (dx : ℝ) / ((height image : ℝ) / 2) * 360 / (2 * Real.pi * 25.0) / 6.0 ∧
    (dx = 0 → (random_shear dx image θ sr).2 = θ) := by
  constructor
  · rfl
  · intro h
    subst h
    simp [random_shear]

/-- Witness for C3 at dx = 100 on a concrete 1 x 1 image. -/
theorem random_shear_steering_delta_witness :
    (random_shear 100 img3 0 200).2 =
      0 + (100 : ℝ) / ((height img3 : ℝ) / 2) * 360 / (2 * Real.pi * 25.0) / 6.0 :=
  (random_shear_steering_delta img3 0 100 200 (by decide) (by decide)
    (by decide)).1

/-- Claim C6: `random_flip` with its draw below the flipping probability
returns the exact horizontal mirror of the image (row reversal; pixel j maps
to pixel W-1-j) paired with the negated angle; with the draw at or above the
probability it returns image and angle unchanged. -/
theorem random_flip_spec (r flipping_prob : ℚ) (image : Image) (θ : ℝ) :
    (r < flipping_prob →
      random_flip r image θ flipping_prob = (fliplr image, -θ) ∧
      ∀ i j, j < (image.getD i []).length →
        ((fliplr image).getD i []).getD j [] =
          (image.getD i []).getD ((image.getD i []).length - 1 - j) []) ∧
    (¬ r < flipping_prob →
      random_flip r image θ flipping_prob = (image, θ)) := by
  constructor
  · intro hr
    constructor
    · rw [random_flip, if_pos hr, neg_one_mul]
    · intro i j hj
      have hrow : (fliplr image).getD i [] = (image.getD i []).reverse := by
        rcases hi : image[i]? with _ | row
        · rw [List.getD_eq_getElem?_getD, List.getD_eq_getElem?_getD]
          unfold fliplr
          rw [List.getElem?_map, hi]
          rfl
        · rw [List.getD_eq_getElem?_getD, List.getD_eq_getElem?_getD]
          unfold fliplr
          rw [List.getElem?_map, hi]
          rfl
      rw [hrow]
      have hj2 : j < (image.getD i []).reverse.length := by
        rw [List.length_reverse]; exact hj
      rw [List.getD_eq_getElem _ [] hj2]
      rw [List.getD_eq_getElem _ []
        (show (image.getD i []).length - 1 - j < (image.getD i []).length by
          omega)]
      rw [List.getElem_reverse]
  · intro hr
    rw [random_flip, if_neg hr]

/-- Witness for C6 at a draw that fires the flip. -/
theorem random_flip_spec_witness :
    ((0.3 : ℚ) < 0.5) ∧ random_flip 0.3 img2 1 0.5 = (fliplr img2, -(1 : ℝ)) :=
  ⟨by norm_num, ((random_flip_spec 0.3 0.5 img2 1).1 (by norm_num)).1⟩

/-- Claim C7: on an image with at least 136 rows, `crop` deterministically
returns exactly the rows with indices 60 (inclusive) to 136 (exclusive),
each row kept whole (all columns and channels); `crop` takes no random
input at all. -/
theorem crop_spec (image : Image) (hwf : ImageWF image)
    (hH : 136 ≤ height image) :
    height (crop image) = 76 ∧
    ∀ i, i < 76 → (crop image)[i]? = image[60 + i]? := by
  constructor
  · simp only [crop, height, HORIZON, BONNET, List.length_map,
      List.length_take, List.length_drop]
    have : height image = image.length := rfl
    omega
  · intro i hi
    have hlt : 60 + i < image.length := by
      have : height image = image.length := rfl
      omega
    rw [crop]
    simp only [HORIZON, BONNET]
    rw [List.getElem?_map, List.getElem?_take, if_pos (by omega : i < 136 - 60),
      List.getElem?_drop, List.getElem?_eq_getElem hlt]
    have hmem : image[60 + i] ∈ image := List.getElem_mem hlt
    have hlen : (image[60 + i]).length = width image := (hwf _ hmem).1
    show some (List.take (width image) (List.drop 0 image[60 + i])) =
      some image[60 + i]
    rw [List.drop_zero, ← hlen, List.take_length]

/-- Witness for C7 on a concrete 136-row image. -/
theorem crop_spec_witness :
    height (crop img136) = 76 ∧ (crop img136)[0]? = img136[60]? :=
  ⟨(crop_spec img136 (by decide) (by decide)).1,
   (crop_spec img136 (by decide) (by decide)).2 0 (by decide)⟩

/-- Painting a pixel (or not) never changes its channel count. -/
theorem fillPixel_length (c : Prop) [Decidable c] (p : Pixel) :
    (if c then fillColor p else p).length = p.length := by
  split
  · exact fillColor_length p
  · rfl

/-- Claim C5 counterexample: `random_shadows` hands `get_shadow_poly` the pair
(shape[0], shape[1]) = (height, width), but `cv2.fillPoly` — like this file's
`pointInPoly`, which `fillPoly` applies at (x, y) = (column, row) — reads each
vertex as (column, row).  On the non-square 2 x 4 image `img24`, with in-range
draws taking the first branch, the two far corners sit at row coordinate 4,
strictly below the image of height 2: the corners do not all stay within the
image bounds and do not reach the opposite image edge, refuting the claim as
stated. -/
theorem shadow_poly_corner_outside_image :
    shadowDrawsValid 0 0 2 2 0 (height img24) (width img24) ∧
    (get_shadow_poly 0 0 2 2 0 (height img24) (width img24)).map Prod.snd =
      [0, 0, 4, 4] ∧
    ¬ ((4 : ℤ) ≤ (height img24 : ℤ)) := by
  refine ⟨?_, ?_, by decide⟩
  · unfold shadowDrawsValid
    rw [if_pos (by norm_num)]
    decide
  · unfold get_shadow_poly
    rw [if_pos (by norm_num)]
    decide

/-- Claim C5 as amended: the quadrilateral's guarantees hold in
`get_shadow_poly`'s own coordinate frame, whose first axis is bounded by its
first argument and second axis by its second — and `random_shadows` passes
(max_x, max_y) = (height, width) while `cv2.fillPoly` reads each vertex as
(column, row).  Under the ranges the random draws guarantee: every corner has
first coordinate (the column fillPoly uses) in [0, max_x] and second
coordinate (the row) in [0, max_y]; in the branch `hdraw < 0.5` the rows are
exactly [0, 0, max_y, max_y] with the four randomized column coordinates in
the lower half [0, max_x/2] (corners 1 and 4) and upper half
[max_x/2, max_x] (corners 2 and 3); the other branch is the transposed
configuration.  Only when max_x = max_y — a square image — do all corners also
lie within the image bounds proper (column ≤ width, row ≤ height), as the
original claim asserted. -/
theorem get_shadow_poly_frame_spec (hdraw : ℚ) (d1 d2 d3 d4 : ℤ)
    (max_x max_y : ℕ)
    (hv : shadowDrawsValid hdraw d1 d2 d3 d4 max_x max_y) :
    (∀ pt ∈ get_shadow_poly hdraw d1 d2 d3 d4 max_x max_y,
      0 ≤ pt.1 ∧ pt.1 ≤ (max_x : ℤ) ∧ 0 ≤ pt.2 ∧ pt.2 ≤ (max_y : ℤ)) ∧
    (hdraw < 1/2 →
      (get_shadow_poly hdraw d1 d2 d3 d4 max_x max_y).map Prod.snd =
        [0, 0, (max_y : ℤ), (max_y : ℤ)] ∧
      0 ≤ d1 ∧ 2 * d1 ≤ (max_x : ℤ) ∧
      (max_x : ℤ) ≤ 2 * d2 ∧ d2 ≤ (max_x : ℤ) ∧
      (max_x : ℤ) ≤ 2 * d3 ∧ d3 ≤ (max_x : ℤ) ∧
      0 ≤ d4 ∧ 2 * d4 ≤ (max_x : ℤ)) ∧
    (¬ hdraw < 1/2 →
      (get_shadow_poly hdraw d1 d2 d3 d4 max_x max_y).map Prod.fst =
        [0, 0, (max_x : ℤ), (max_x : ℤ)] ∧
      0 ≤ d1 ∧ 2 * d1 ≤ (max_y : ℤ) ∧
      (max_y : ℤ) ≤ 2 * d2 ∧ d2 ≤ (max_y : ℤ) ∧
      (max_y : ℤ) ≤ 2 * d3 ∧ d3 ≤ (max_y : ℤ) ∧
      0 ≤ d4 ∧ 2 * d4 ≤ (max_y : ℤ)) ∧
    (max_x = max_y →
      ∀ pt ∈ get_shadow_poly hdraw d1 d2 d3 d4 max_x max_y,
        0 ≤ pt.1 ∧ pt.1 ≤ (max_y : ℤ) ∧ 0 ≤ pt.2 ∧ pt.2 ≤ (max_x : ℤ)) := by
  unfold shadowDrawsValid at hv
  unfold get_shadow_poly
  by_cases hc : hdraw < 1/2
  · rw [if_pos hc] at hv ⊢
    obtain ⟨⟨h1a, h1b⟩, ⟨h2a, h2b⟩, ⟨h3a, h3b⟩, ⟨h4a, h4b⟩⟩ := hv
    have hb : ∀ pt ∈ [(d1, (0 : ℤ)), (d2, (0 : ℤ)), (d3, (max_y : ℤ)),
        (d4, (max_y : ℤ))],
        0 ≤ pt.1 ∧ pt.1 ≤ (max_x : ℤ) ∧ 0 ≤ pt.2 ∧ pt.2 ≤ (max_y : ℤ) := by
      intro pt hpt
      simp only [List.mem_cons, List.not_mem_nil, or_false] at hpt
      rcases hpt with rfl | rfl | rfl | rfl <;> dsimp only <;> omega
    refine ⟨hb, ?_, fun hcon => absurd hc hcon, ?_⟩
    · intro _
      refine ⟨by simp, h1a, h1b, h2a, h2b, h3a, h3b, h4a, h4b⟩
    · intro hsq pt hpt
      have h0 := hb pt hpt
      rw [hsq] at h0 ⊢
      exact h0
  · rw [if_neg hc] at hv ⊢
    obtain ⟨⟨h1a, h1b⟩, ⟨h2a, h2b⟩, ⟨h3a, h3b⟩, ⟨h4a, h4b⟩⟩ := hv
    have hb : ∀ pt ∈ [((0 : ℤ), d1), ((0 : ℤ), d2), ((max_x : ℤ), d3),
        ((max_x : ℤ), d4)],
        0 ≤ pt.1 ∧ pt.1 ≤ (max_x : ℤ) ∧ 0 ≤ pt.2 ∧ pt.2 ≤ (max_y : ℤ) := by
      intro pt hpt
      simp only [List.mem_cons, List.not_mem_nil, or_false] at hpt
      rcases hpt with rfl | rfl | rfl | rfl <;> dsimp only <;> omega
    refine ⟨hb, fun hcon => absurd hcon hc, ?_, ?_⟩
    · intro _
      refine ⟨by simp, h1a, h1b, h2a, h2b, h3a, h3b, h4a, h4b⟩
    · intro hsq pt hpt
      have h0 := hb pt hpt
      rw [hsq] at h0 ⊢
      exact h0

/-- Witness for the amended C5 with concrete in-range draws on a square
2 x 2 image. -/
theorem get_shadow_poly_frame_spec_witness :
    shadowDrawsValid 0 0 2 2 0 2 2 ∧
    (get_shadow_poly 0 0 2 2 0 2 2).map Prod.snd = [0, 0, 2, 2] := by
  have hv : shadowDrawsValid 0 0 2 2 0 2 2 := by
    unfold shadowDrawsValid
    rw [if_pos (by norm_num)]
    norm_num
  exact ⟨hv,
    ((get_shadow_poly_frame_spec 0 0 2 2 0 2 2 hv).2.1 (by norm_num)).1⟩

/-- Claim C8: `random_shadows` returns an image of the same height, width and
channel count as its input, and — taking no angle argument and returning
none — leaves any paired steering angle untouched. -/
theorem random_shadows_shape_and_label (hdraw : ℚ) (d1 d2 d3 d4 : ℤ)
    (alpha : ℚ) (image : Image) :
    dims (random_shadows hdraw d1 d2 d3 d4 alpha image).1 = dims image ∧
    ∀ θ : ℝ, ((random_shadows hdraw d1 d2 d3 d4 alpha image).1, θ).2 = θ := by
  refine ⟨?_, fun θ => rfl⟩
  rcases image with _ | ⟨row, rest⟩
  · rfl
  rcases row with _ | ⟨p, ps⟩
  · simp [random_shadows, addWeighted, fillPoly, mapIdxFrom, dims, height,
      width, channels, mapIdxFrom_length]
  · simp [random_shadows, addWeighted, fillPoly, mapIdxFrom, dims, height,
      width, channels, mapIdxFrom_length, fillPixel_length]

/-- Claim C4 counterexample: `random_shadows` writes its output into the
caller's input buffer (`dst = image` in the `cv2.addWeighted` call), so after
the call the argument no longer holds the original image: concretely on a
2 x 2 all-ones image with in-range draws, the buffer contents changed. -/
theorem random_shadows_mutates_caller_buffer :
    (random_shadows 0 0 2 2 0 (3/4) img2).2 ≠ img2 := by
  intro h
  have h0 : getPixel ((random_shadows 0 0 2 2 0 (3/4) img2).2) 0 0 =
      getPixel img2 0 0 := by rw [h]
  rw [random_shadows] at h0
  simp only [img2, height, width, get_shadow_poly] at h0
  rw [if_pos (by norm_num)] at h0
  simp only [fillPoly, mapIdxFrom, addWeighted, getPixel, fillColor,
    List.zipWith, List.enum, List.getD, List.map] at h0
  norm_num at h0

/-- Claim C4 as amended: every transform except `random_shadows` leaves the
caller's image buffer unmodified (their only random effect is the internal
draw); `random_shadows` instead overwrites the caller's buffer with the very
image it returns, because it passes the input as the `dst` of
`cv2.addWeighted`. -/
theorem transform_buffer_semantics :
    (∀ r image θ p, (random_flipRun r image θ p).2 = image) ∧
    (∀ dx image θ sr, (random_shearRun dx image θ sr).2 = image) ∧
    (∀ image, (cropRun image).2 = image) ∧
    (∀ image dim, (resizeRun image dim).2 = image) ∧
    (∀ u image med dev, (random_brightnessRun u image med dev).2 = image) ∧
    (∀ hdraw d1 d2 d3 d4 alpha image,
      (random_shadows hdraw d1 d2 d3 d4 alpha image).2 =
        (random_shadows hdraw d1 d2 d3 d4 alpha image).1) :=
  ⟨fun _ _ _ _ => rfl, fun _ _ _ _ => rfl, fun _ => rfl, fun _ _ => rfl,
   fun _ _ _ _ => rfl, fun _ _ _ _ _ _ _ => rfl⟩

/-- Claim C2 (code defect): with augmentation off, `generate_next_batch` is
supposed (per its own docstring and the spec) to crop and resize each loaded
image to the configured `resize_dim`; instead its non-augmented branch
evaluates the free name `resize_dim`, which `helper.py` never defines, so the
first processed entry raises `NameError` and no batch is ever emitted.
Evaluated here on a concrete one-row log whose image loads successfully. -/
theorem generate_next_batch_augment_off_raises :
    generate_next_batch_once loadW [rowA] [(0, 0)]
      (fun _ => ((0 : ℚ), (0 : ℤ))) false = .error .nameErrorResizeDim := rfl

/-- If every entry before a failing one loads successfully, the batch loop
stops at the failing load and returns exactly its error. -/
theorem processEntries_first_failure (load : String → Except PipeError Image)
    (augDraw : ℕ → ℚ × ℤ) (pre : List (String × ℝ)) (x : String × ℝ)
    (post : List (String × ℝ)) (k : ℕ) (e : PipeError)
    (hpre : ∀ q ∈ pre, ∃ im, load q.1 = .ok im)
    (hx : load x.1 = .error e) :
    processEntries load true augDraw k (pre ++ x :: post) = .error e := by
  induction pre generalizing k with
  | nil =>
    simp only [List.nil_append, processEntries, processEntry, hx]
  | cons q qs ih =>
    obtain ⟨im, him⟩ := hpre q (List.mem_cons_self q qs)
    have hqs : ∀ q2 ∈ qs, ∃ im2, load q2.1 = .ok im2 :=
      fun q2 hq2 => hpre q2 (List.mem_cons_of_mem _ hq2)
    simp only [List.cons_append, processEntries, processEntry, him, if_true]
    have h2 := ih (k + 1) hqs
    simp only [List.append_eq] at h2 ⊢
    rw [h2]

/-- Claim C9: one generator iteration propagates failures unchanged and emits
no partial batch: a failure while sampling the batch (row access) becomes the
iteration's result, and, with augmentation on, a failing image load — all
entries before it loading fine — aborts the iteration with exactly that
error. -/
theorem generate_next_batch_propagates_failure
    (load : String → Except PipeError Image) (samples : List LogRow)
    (draws : List (ℕ × ℕ)) (augDraw : ℕ → ℚ × ℤ) :
    (∀ e, next_batch samples draws = .error e →
      generate_next_batch_once load samples draws augDraw true = .error e) ∧
    (∀ pre x post e, next_batch samples draws = .ok (pre ++ x :: post) →
      (∀ q ∈ pre, ∃ im, load q.1 = .ok im) →
      load x.1 = .error e →
      generate_next_batch_once load samples draws augDraw true = .error e) := by
  constructor
  · intro e h
    simp only [generate_next_batch_once, h]
  · intro pre x post e h hpre hx
    simp only [generate_next_batch_once, h]
    rw [processEntries_first_failure load augDraw pre x post 0 e hpre hx]

/-- Witness for C9: the second of two sampled images fails to load and the
iteration returns exactly that error. -/
theorem generate_next_batch_propagates_failure_witness :
    next_batch [rowA, rowB] [(0, 0), (1, 0)] =
      .ok ([("a", (1 : ℝ))] ++ ("b", (2 : ℝ)) :: []) ∧
    generate_next_batch_once loadW [rowA, rowB] [(0, 0), (1, 0)]
      (fun _ => ((1 : ℚ), (0 : ℤ))) true = .error (.imageLoadError "b") := by
  refine ⟨rfl, ?_⟩
  refine (generate_next_batch_propagates_failure loadW [rowA, rowB]
    [(0, 0), (1, 0)] (fun _ => ((1 : ℚ), (0 : ℤ)))).2
    [("a", (1 : ℝ))] ("b", (2 : ℝ)) [] (.imageLoadError "b") rfl ?_ rfl
  intro q hq
  rw [List.mem_singleton] at hq
  subst hq
  exact ⟨img3, rfl⟩

/-- `np.fliplr` keeps all three dimensions of a well-formed image. -/
theorem dims_fliplr (image : Image) (hwf : ImageWF image)
    (hH : 1 ≤ height image) (hW : 1 ≤ width image) :
    dims (fliplr image) = dims image := by
  rcases image with _ | ⟨row, rest⟩
  · simp [height] at hH
  have hrowne : row ≠ [] := by
    intro h
    subst h
    simp [width] at hW
  obtain ⟨q, qs, hq⟩ : ∃ q qs, row.reverse = q :: qs := by
    rcases hrev : row.reverse with _ | ⟨q, qs⟩
    · exact absurd (List.reverse_eq_nil_iff.mp hrev) hrowne
    · exact ⟨q, qs, rfl⟩
  have hqmem : q ∈ row := by
    have : q ∈ row.reverse := hq ▸ List.mem_cons_self q qs
    exact List.mem_reverse.mp this
  have hqlen : q.length = channels (row :: rest) :=
    (hwf row (List.mem_cons_self row rest)).2 q hqmem
  refine Prod.ext ?_ (Prod.ext ?_ ?_)
  · simp [fliplr, dims, height]
  · simp [fliplr, dims, width]
  · show channels (row.reverse :: rest.map List.reverse) = channels (row :: rest)
    rw [show channels (row.reverse :: rest.map List.reverse) =
      (row.reverse.headD []).length from rfl]
    rw [hq]
    exact hqlen

/-- `rgb2hsvPixel` produces a 3-channel pixel from a 3-channel pixel. -/
theorem rgb2hsvPixel_length (a b c : ℚ) :
    (rgb2hsvPixel [a, b, c]).length = 3 := rfl

/-- `hsv2rgbPixel` produces a 3-channel pixel from a 3-channel pixel. -/
theorem hsv2rgbPixel_length (p : Pixel) (hp : p.length = 3) :
    (hsv2rgbPixel p).length = 3 := by
  obtain ⟨x, y, z, rfl⟩ := List.length_eq_three.mp hp
  simp only [hsv2rgbPixel]
  split_ifs <;> rfl

/-- Claim C10: every augmentation-path transform — `random_flip`,
`random_shear`, `random_brightness` — returns an image with exactly the
input's (rows, cols, channels), whatever its internal random draw, so an
augmented image keeps its original, uncropped size. -/
theorem augmentation_preserves_dims (image : Image) (hwf : ImageWF image)
    (hH : 1 ≤ height image) (hW : 1 ≤ width image)
    (hC : channels image = 3) :
    (∀ r p θ, dims (random_flip r image θ p).1 = dims image) ∧
    (∀ dx sr θ, dims (random_shear dx image θ sr).1 = dims image) ∧
    (∀ u med dev, dims (random_brightness u image med dev) = dims image) := by
  refine ⟨?_, ?_, ?_⟩
  · intro r p θ
    by_cases hr : r < p
    · rw [random_flip, if_pos hr]
      exact dims_fliplr image hwf hH hW
    · rw [random_flip, if_neg hr]
  · intro dx sr θ
    show dims (warpAffine image _ (width image) (height image)) = dims image
    rw [dims_warpAffine image _ (width image) (height image) hH hW hwf hH hW]
    rfl
  · intro u med dev
    rcases image with _ | ⟨row, rest⟩
    · simp [height] at hH
    rcases row with _ | ⟨p, ps⟩
    · simp [width] at hW
    have hp3 : p.length = 3 := hC
    refine Prod.ext ?_ (Prod.ext ?_ ?_)
    · simp [random_brightness, cvtColorRGB2HSV, cvtColorHSV2RGB, dims, height]
    · simp [random_brightness, cvtColorRGB2HSV, cvtColorHSV2RGB, dims, width]
    · show (hsv2rgbPixel ((rgb2hsvPixel p).set 2 _)).length = channels _
      rw [hsv2rgbPixel_length]
      · exact hC.symm
      · rw [List.length_set]
        obtain ⟨a, b, c, rfl⟩ := List.length_eq_three.mp hp3
        exact rgb2hsvPixel_length a b c

/-- Witness for C10 on a concrete 1 x 1 three-channel image. -/
theorem augmentation_preserves_dims_witness :
    ImageWF img3 ∧
    dims (random_shear 5 img3 0 200).1 = dims img3 ∧
    dims (random_brightness (1/4) img3 (4/5) (2/5)) = dims img3 :=
  ⟨by decide,
   (augmentation_preserves_dims img3 (by decide) (by decide) (by decide)
      (by decide)).2.1 5 200 0,
   (augmentation_preserves_dims img3 (by decide) (by decide) (by decide)
      (by decide)).2.2 (1/4) (4/5) (2/5)⟩

end BCHelper
